import Mathlib

/-!
Verification of the column-name sanitization core of the
CO2-vs-temperature data-ingestion notebook.

The program's core is two functions:

* `replace_invalid_chars` (Data Ingestion CO2 vs Temperature
  Solutions.py, solution cell): a loop over the eleven invalid
  characters that rewrites the whole column-name string once per
  character, replacing the seven "underscore candidates" by `_` and
  deleting the other four;
* `fix_columns`: renames every column of a dataframe through
  `replace_invalid_chars`, keeping order and row data.

Strings are embedded as `List Char` (Python `str` is a sequence of
characters); `String` wrappers connect the results to literal examples.
-/

namespace CO2

/-- The eleven characters the source declares invalid for Parquet column
names: `INVALID_CHARS = [" ", ",", ";", "\n", "\t", "=", "-", "{", "}", "(", ")"]`. -/
def INVALID_CHARS : List Char :=
  [' ', ',', ';', '\n', '\t', '=', '-', '\x7b', '\x7d', '(', ')']

/-- The seven characters the source replaces with an underscore:
`UNDERSCORE_CANDIDATES = [" ", ",", ";", "\n", "\t", "=", "-"]`. -/
def UNDERSCORE_CANDIDATES : List Char :=
  [' ', ',', ';', '\n', '\t', '=', '-']

/-- Python's `str.replace(old, new)` specialised to a single-character
needle `old`: the left-to-right scan over the string replacing every
occurrence of `old` by `new`. -/
def pyReplace (s : List Char) (old : Char) (new : List Char) : List Char :=
  match s with
  | [] => []
  | x :: xs => (if x = old then new else [x]) ++ pyReplace xs old new

/-- The body of the source's loop
`for char in INVALID_CHARS: column_name = column_name.replace(char, replacement)`
with `replacement = "_" if char in UNDERSCORE_CANDIDATES else ""`,
generalised over the list of characters still to process. -/
def sanitizeLoop (cs : List Char) (s : List Char) : List Char :=
  cs.foldl
    (fun t c => pyReplace t c (if c ∈ UNDERSCORE_CANDIDATES then ['_'] else []))
    s

/-- `replace_invalid_chars` from the source: sequentially replace each of
the `INVALID_CHARS` in the column name, using `_` for the
`UNDERSCORE_CANDIDATES` and the empty string for the rest. -/
def replace_invalid_chars (column_name : List Char) : List Char :=
  sanitizeLoop INVALID_CHARS column_name

/-- `replace_invalid_chars` lifted to `String`, for the spec's literal
examples. -/
def replaceInvalidCharsStr (s : String) : String :=
  ⟨replace_invalid_chars s.data⟩

/-- The spec's independent per-character replacement: an underscore-set
character becomes `_`, a strip-set character becomes nothing, any other
character passes through. Written from the spec's words, to be compared
with the source's sequential loop. -/
def sanitizeChar (c : Char) : List Char :=
  if c ∈ UNDERSCORE_CANDIDATES then ['_']
  else if c ∈ INVALID_CHARS then []
  else [c]

/-- The spec's whole-string sanitizer: the concatenation, over the
characters of the input in order, of their per-character images. -/
def charwiseSanitizer (s : List Char) : List Char :=
  s.flatMap sanitizeChar

/-- A dataframe as the spec's Tabular Dataset: an ordered schema of column
names plus rows of values aligned positionally with the schema. -/
structure DataFrame (α : Type) where
  columns : List String
  rows : List (List α)

/-- `fix_columns` from the source:
`df.select([F.col(x).alias(replace_invalid_chars(x)) for x in df.columns])`
— one output column per input column, in order, each keeping its values
and taking the sanitized name as alias. -/
def fix_columns {α : Type} (df : DataFrame α) : DataFrame α :=
  { columns := df.columns.map replaceInvalidCharsStr
    rows := df.rows }

/-! ### The loop acts character by character -/

lemma pyReplace_append (a b : List Char) (c : Char) (r : List Char) :
    pyReplace (a ++ b) c r = pyReplace a c r ++ pyReplace b c r := by
  induction a with
  | nil => simp [pyReplace]
  | cons x xs ih => simp [pyReplace, ih]

lemma pyReplace_nil (c : Char) (r : List Char) : pyReplace [] c r = [] := rfl

lemma sanitizeLoop_nil (cs : List Char) : sanitizeLoop cs [] = [] := by
  induction cs with
  | nil => rfl
  | cons c cs ih => simpa [sanitizeLoop, pyReplace_nil] using ih

lemma sanitizeLoop_append (cs a b : List Char) :
    sanitizeLoop cs (a ++ b) = sanitizeLoop cs a ++ sanitizeLoop cs b := by
  induction cs generalizing a b with
  | nil => rfl
  | cons c cs ih =>
      simp only [sanitizeLoop, List.foldl_cons] at *
      rw [pyReplace_append, ih]

lemma sanitizeLoop_cons (cs : List Char) (x : Char) (s : List Char) :
    sanitizeLoop cs (x :: s) = sanitizeLoop cs [x] ++ sanitizeLoop cs s := by
  have h := sanitizeLoop_append cs [x] s
  simpa using h

lemma sanitizeLoop_singleton_of_not_mem (cs : List Char) (x : Char)
    (hx : x ∉ cs) : sanitizeLoop cs [x] = [x] := by
  induction cs with
  | nil => rfl
  | cons c cs ih =>
      have hxc : x ≠ c := fun h => hx (h ▸ List.mem_cons_self c cs)
      have hx' : x ∉ cs := fun h => hx (List.mem_cons_of_mem c h)
      simpa [sanitizeLoop, pyReplace, hxc] using ih hx'

lemma underscore_mem_invalid (c : Char) (h : c ∈ UNDERSCORE_CANDIDATES) :
    c ∈ INVALID_CHARS := by
  simp only [UNDERSCORE_CANDIDATES, List.mem_cons, List.not_mem_nil, or_false] at h
  rcases h with rfl | rfl | rfl | rfl | rfl | rfl | rfl <;> decide

lemma sanitizeLoop_singleton (x : Char) :
    sanitizeLoop INVALID_CHARS [x] = sanitizeChar x := by
  by_cases h : x ∈ INVALID_CHARS
  · simp only [INVALID_CHARS, List.mem_cons, List.not_mem_nil, or_false] at h
    rcases h with rfl | rfl | rfl | rfl | rfl | rfl | rfl | rfl | rfl | rfl | rfl
      <;> decide
  · rw [sanitizeLoop_singleton_of_not_mem _ _ h]
    have h2 : x ∉ UNDERSCORE_CANDIDATES := fun hu => h (underscore_mem_invalid x hu)
    simp [sanitizeChar, h, h2]

/-- Core lemma: the source's sequential whole-string replace loop equals
the spec's independent per-character map. -/
lemma replace_invalid_chars_eq_charwise (s : List Char) :
    replace_invalid_chars s = charwiseSanitizer s := by
  induction s with
  | nil => simp [replace_invalid_chars, sanitizeLoop_nil, charwiseSanitizer]
  | cons x xs ih =>
      rw [replace_invalid_chars] at *
      rw [sanitizeLoop_cons, sanitizeLoop_singleton, ih]
      simp [charwiseSanitizer]

/-! ### Claims -/

/-- C1: for every input string, the Column Sanitizer
(`replace_invalid_chars`) returns exactly the concatenation, over the
characters of the input in order, of one underscore per underscore-set
character, nothing per strip-set character, and the character itself
otherwise: the sequential whole-string replace loop is extensionally
equal to the independent per-character map. -/
theorem sanitizer_is_charwise_map (s : List Char) :
    replace_invalid_chars s = charwiseSanitizer s :=
  replace_invalid_chars_eq_charwise s

lemma underscore_not_invalid : '_' ∉ INVALID_CHARS := by decide

lemma output_chars_not_invalid (s : List Char) (c : Char)
    (hc : c ∈ replace_invalid_chars s) : c ∉ INVALID_CHARS := by
  rw [replace_invalid_chars_eq_charwise, charwiseSanitizer, List.mem_flatMap] at hc
  obtain ⟨x, _, hcx⟩ := hc
  unfold sanitizeChar at hcx
  by_cases h1 : x ∈ UNDERSCORE_CANDIDATES
  · simp only [h1, if_pos, List.mem_singleton] at hcx
    subst hcx
    exact underscore_not_invalid
  · by_cases h2 : x ∈ INVALID_CHARS
    · simp [h1, h2] at hcx
    · simp only [h1, if_neg, not_false_iff, h2, List.mem_singleton] at hcx
      subst hcx
      exact h2

lemma sanitizer_id_of_clean (s : List Char)
    (h : ∀ c ∈ s, c ∉ INVALID_CHARS) : replace_invalid_chars s = s := by
  rw [replace_invalid_chars_eq_charwise]
  induction s with
  | nil => rfl
  | cons x xs ih =>
      have hx : x ∉ INVALID_CHARS := h x (List.mem_cons_self x xs)
      have hx2 : x ∉ UNDERSCORE_CANDIDATES := fun hu => hx (underscore_mem_invalid x hu)
      have ih2 := ih (fun c hc => h c (List.mem_cons_of_mem x hc))
      simp only [charwiseSanitizer, List.flatMap_cons] at *
      rw [ih2]
      simp [sanitizeChar, hx, hx2]

/-- C3: the output of the Column Sanitizer contains no occurrence of any
of the eleven forbidden characters. -/
theorem sanitizer_output_has_no_invalid_char (s : List Char) (c : Char)
    (hc : c ∈ replace_invalid_chars s) : c ∉ INVALID_CHARS :=
  output_chars_not_invalid s c hc

/-- Witness for C3: the sanitized form of `"a b"` contains `'_'`, and
`'_'` is not a forbidden character. -/
theorem sanitizer_output_has_no_invalid_char_witness :
    '_' ∈ replace_invalid_chars ['a', ' ', 'b'] ∧ '_' ∉ INVALID_CHARS :=
  ⟨by decide, sanitizer_output_has_no_invalid_char ['a', ' ', 'b'] '_' (by decide)⟩

/-- C4: the Column Sanitizer is idempotent: applying it twice gives the
same result as applying it once. -/
theorem sanitizer_idempotent (s : List Char) :
    replace_invalid_chars (replace_invalid_chars s) = replace_invalid_chars s :=
  sanitizer_id_of_clean _ (fun c hc => output_chars_not_invalid s c hc)

/-- C5: the Column Sanitizer is the identity on strings containing none
of the forbidden characters. -/
theorem sanitizer_id_on_clean_names (s : List Char)
    (h : ∀ c ∈ s, c ∉ INVALID_CHARS) : replace_invalid_chars s = s :=
  sanitizer_id_of_clean s h

/-- Witness for C5: `"abc"` is clean and the sanitizer leaves it
unchanged. -/
theorem sanitizer_id_on_clean_names_witness :
    (∀ c ∈ ['a', 'b', 'c'], c ∉ INVALID_CHARS) ∧
      replace_invalid_chars ['a', 'b', 'c'] = ['a', 'b', 'c'] :=
  ⟨by decide, sanitizer_id_on_clean_names ['a', 'b', 'c'] (by decide)⟩

/-- C6: the Sanitizer does not collapse runs: two adjacent underscore-set
characters anywhere in the input produce two adjacent underscores at that
position in the output. -/
theorem sanitizer_no_collapsing (a b : List Char) (c₁ c₂ : Char)
    (h1 : c₁ ∈ UNDERSCORE_CANDIDATES) (h2 : c₂ ∈ UNDERSCORE_CANDIDATES) :
    replace_invalid_chars (a ++ c₁ :: c₂ :: b) =
      replace_invalid_chars a ++ '_' :: '_' :: replace_invalid_chars b := by
  rw [replace_invalid_chars_eq_charwise, replace_invalid_chars_eq_charwise,
    replace_invalid_chars_eq_charwise]
  simp only [charwiseSanitizer, List.flatMap_append, List.flatMap_cons]
  rw [sanitizeChar, if_pos h1, sanitizeChar, if_pos h2]
  simp

/-- Witness for C6: two adjacent spaces in `"a  b"` become two adjacent
underscores. -/
theorem sanitizer_no_collapsing_witness :
    ' ' ∈ UNDERSCORE_CANDIDATES ∧
      replace_invalid_chars (['a'] ++ ' ' :: ' ' :: ['b']) =
        replace_invalid_chars ['a'] ++ '_' :: '_' :: replace_invalid_chars ['b'] :=
  ⟨by decide, sanitizer_no_collapsing ['a'] ['b'] ' ' ' ' (by decide) (by decide)⟩

/-- C7: the spec's worked examples evaluate as stated. -/
theorem sanitizer_worked_examples :
    replaceInvalidCharsStr "My Awesome Column" = "My_Awesome_Column" ∧
      replaceInvalidCharsStr "(Another) Awesome Column" = "Another_Awesome_Column" ∧
      replaceInvalidCharsStr "a;b\tc\nd-e=f" = "a_b_c_d_e_f" := by
  refine ⟨?_, ?_, ?_⟩ <;> decide

/-- C8: the Column Sanitizer is total — every string input, including the
empty string and strings made only of forbidden characters, yields a
result — and in particular the empty string maps to the empty string and
`"\x7b\x7d()"` maps to the empty string. -/
theorem sanitizer_total_and_empty_cases :
    (∀ s : String, ∃ t : String, replaceInvalidCharsStr s = t) ∧
      replaceInvalidCharsStr "" = "" ∧
      replaceInvalidCharsStr "\x7b\x7d()" = "" :=
  ⟨fun s => ⟨replaceInvalidCharsStr s, rfl⟩, by decide, by decide⟩

/-- C2: the Dataset Fixer keeps the column count and order, renames each
column through the Sanitizer, and changes no row value. -/
theorem fixer_renames_schema_preserves_rows {α : Type} (df : DataFrame α) :
    (fix_columns df).columns = df.columns.map replaceInvalidCharsStr ∧
      (fix_columns df).columns.length = df.columns.length ∧
      (fix_columns df).rows = df.rows :=
  ⟨rfl, by simp [fix_columns], rfl⟩

/-- C9: on a zero-column dataset the Fixer returns a zero-column dataset
with the same row count, raising no error. -/
theorem fixer_empty_schema {α : Type} (df : DataFrame α)
    (h : df.columns = []) :
    (fix_columns df).columns = [] ∧
      (fix_columns df).rows.length = df.rows.length :=
  ⟨by simp [fix_columns, h], rfl⟩

/-- Witness for C9: a dataset with empty schema and two (empty) rows
passes through with empty schema and two rows. -/
theorem fixer_empty_schema_witness :
    (fix_columns (⟨[], [[], []]⟩ : DataFrame Nat)).columns = [] ∧
      (fix_columns (⟨[], [[], []]⟩ : DataFrame Nat)).rows.length =
        (⟨[], [[], []]⟩ : DataFrame Nat).rows.length :=
  fixer_empty_schema (⟨[], [[], []]⟩ : DataFrame Nat) rfl

lemma two_le_count_of_get_eq {α : Type} [DecidableEq α] :
    ∀ (l : List α) (i j : Nat) (hi : i < l.length) (hj : j < l.length),
      i < j → ∀ v : α, l.get ⟨i, hi⟩ = v → l.get ⟨j, hj⟩ = v →
        2 ≤ l.count v := by
  intro l
  induction l with
  | nil => intro i j hi; exact absurd hi (Nat.not_lt_zero i)
  | cons x xs ih =>
      intro i j hi hj hij v hvi hvj
      cases i with
      | zero =>
          cases j with
          | zero => exact absurd hij (lt_irrefl 0)
          | succ m =>
              have hm : m < xs.length := Nat.lt_of_succ_lt_succ hj
              have hget : xs.get ⟨m, hm⟩ = v := by simpa using hvj
              have hmem : v ∈ xs := hget ▸ List.get_mem xs m hm
              have h1 : 0 < xs.count v := List.count_pos_iff.mpr hmem
              have hx : x = v := by simpa using hvi
              subst hx
              rw [List.count_cons_self]
              omega
      | succ k =>
          cases j with
          | zero => exact absurd hij (Nat.not_lt_zero _)
          | succ m =>
              have hk : k < xs.length := Nat.lt_of_succ_lt_succ hi
              have hm : m < xs.length := Nat.lt_of_succ_lt_succ hj
              have h2 := ih k m hk hm (Nat.lt_of_succ_lt_succ hij) v
                (by simpa using hvi) (by simpa using hvj)
              exact le_trans h2 (List.count_le_count_cons v x xs)

/-- C10: when two distinct original column names sanitize to the same
name, the Fixer neither errors nor drops a column: the column count and
rows are preserved and the colliding sanitized name occurs at least twice
in the output schema. -/
theorem fixer_on_collision {α : Type} (df : DataFrame α) (i j : Nat)
    (hi : i < df.columns.length) (hj : j < df.columns.length) (hij : i ≠ j)
    (_hdist : df.columns.get ⟨i, hi⟩ ≠ df.columns.get ⟨j, hj⟩)
    (hcoll : replaceInvalidCharsStr (df.columns.get ⟨i, hi⟩) =
      replaceInvalidCharsStr (df.columns.get ⟨j, hj⟩)) :
    (fix_columns df).columns.length = df.columns.length ∧
      (fix_columns df).rows = df.rows ∧
      2 ≤ (fix_columns df).columns.count
        (replaceInvalidCharsStr (df.columns.get ⟨i, hi⟩)) := by
  refine ⟨by simp [fix_columns], rfl, ?_⟩
  have hi' : i < (fix_columns df).columns.length := by
    simpa [fix_columns] using hi
  have hj' : j < (fix_columns df).columns.length := by
    simpa [fix_columns] using hj
  have hgi : (fix_columns df).columns.get ⟨i, hi'⟩ =
      replaceInvalidCharsStr (df.columns.get ⟨i, hi⟩) := by
    simp [fix_columns]
  have hgj : (fix_columns df).columns.get ⟨j, hj'⟩ =
      replaceInvalidCharsStr (df.columns.get ⟨i, hi⟩) := by
    rw [hcoll]
    simp [fix_columns]
  rcases hij.lt_or_lt with hlt | hlt
  · exact two_le_count_of_get_eq _ i j hi' hj' hlt _ hgi hgj
  · exact two_le_count_of_get_eq _ j i hj' hi' hlt _ hgj hgi

/-- A concrete dataset whose two distinct column names collide after
sanitization: both `"a b"` and `"a-b"` sanitize to `"a_b"`. -/
def collisionDF : DataFrame String :=
  ⟨["a b", "a-b"], [["x", "y"], ["z", "w"]]⟩

/-- Witness for C10: on `collisionDF` the originals are distinct, both
sanitize to the same name, and the Fixer keeps both columns and all rows,
the colliding name appearing twice. -/
theorem fixer_on_collision_witness :
    collisionDF.columns.get ⟨0, by decide⟩ ≠ collisionDF.columns.get ⟨1, by decide⟩ ∧
      replaceInvalidCharsStr (collisionDF.columns.get ⟨0, by decide⟩) =
        replaceInvalidCharsStr (collisionDF.columns.get ⟨1, by decide⟩) ∧
      (fix_columns collisionDF).columns.length = collisionDF.columns.length ∧
      (fix_columns collisionDF).rows = collisionDF.rows ∧
      2 ≤ (fix_columns collisionDF).columns.count
        (replaceInvalidCharsStr (collisionDF.columns.get ⟨0, by decide⟩)) := by
  have h := fixer_on_collision collisionDF 0 1 (by decide) (by decide)
    (by decide) (by decide) (by decide)
  exact ⟨by decide, by decide, h.1, h.2.1, h.2.2⟩

end CO2
